import Mathlib

/-! Overview.
Verification development for the torch-kalman core
(files: torch_kalman/covariance.py, torch_kalman/kalman_filter.py,
torch_kalman/kalman_filter/base.py, torch_kalman/process/utils/for_batch.py).

Real-valued tensors are modelled as functions over natural-number indices
(zero outside the live range), 1-d parameter tensors as lists of reals, and
python dicts as association lists.  The filtering engine is modelled as the
source's loop over timesteps, parameterised by the per-timestep design
matrices F, Q, H, R (the design-assembly module is not part of the given
sources) and by the StateBelief operations; each loop iteration also emits
the operations it performs, so the recursion structure can be stated.
-/

/-- Error taxonomy of the spec: ConfigurationError (unsupported method,
dimension mismatch, non-positive horizon), NumericalError (collapsed
covariance diagonal), NotImplemented (unsupported cache keys / methods),
ContractError (for-batch restricted method misuse). -/
inductive KFError where
  | configError
  | numericalError
  | notImplemented
  | contractError
deriving DecidableEq

/-- An operation performed by the filter recursion, with the timestep index
of the design matrices / observation it consumed. -/
inductive KFOp where
  | update (t : ℕ)
  | predict (t : ℕ)
  | measure (t : ℕ)
deriving DecidableEq

/-- Association-list lookup, modelling python dict `.get`. -/
def alookup {κ ν : Type} [BEq κ] (l : List (κ × ν)) (k : κ) : Option ν :=
  (l.find? (fun q => q.1 == k)).map (fun q => q.2)

/-- The `padded_to_unpadded` dict built by the enumerate loop of
`pad_covariance` (covariance.py lines 91-96): position `p_idx` maps to the
running counter `up_idx` exactly when the mask entry equals 1. -/
def buildP2U : List ℕ → ℕ → ℕ → List (ℕ × ℕ)
  | [], _, _ => []
  | is_filled :: rest, p_idx, up_idx =>
    if is_filled = 1 then (p_idx, up_idx) :: buildP2U rest (p_idx + 1) (up_idx + 1)
    else buildP2U rest (p_idx + 1) up_idx

/-- The function `pad_covariance` (covariance.py lines 89-110).  The shortcut returns the
input unchanged when the counter reached the mask length; otherwise the
output is zero except at pairs of filled positions, where the upper triangle
is copied from the unpadded matrix and mirrored below. -/
def pad_covariance {α : Type} [Zero α] (unpadded_cov : ℕ → ℕ → α) (mask_1d : List ℕ) :
    ℕ → ℕ → α :=
  if (buildP2U mask_1d 0 0).length = mask_1d.length then unpadded_cov
  else fun to_r to_c =>
    if to_r < mask_1d.length ∧ to_c < mask_1d.length then
      if to_r ≤ to_c then
        match alookup (buildP2U mask_1d 0 0) to_r, alookup (buildP2U mask_1d 0 0) to_c with
        | some from_r, some from_c => unpadded_cov from_r from_c
        | _, _ => 0
      else
        match alookup (buildP2U mask_1d 0 0) to_c, alookup (buildP2U mask_1d 0 0) to_r with
        | some from_c, some from_r => unpadded_cov from_c from_r
        | _, _ => 0
    else 0

/-- The method `Covariance.log_chol_to_chol` (covariance.py lines 40-52): a lower
triangular matrix whose diagonal is the exponentiated log-diagonal
parameter and whose strictly-lower entries are filled from the off-diagonal
parameter by the double loop over rows and columns, with a running index
threaded through the fold exactly as the source threads `idx`. -/
noncomputable def log_chol_to_chol (log_diag off_diag : List ℝ) : ℕ → ℕ → ℝ :=
  ((List.range log_diag.length).foldl
    (fun (Li : (ℕ → ℕ → ℝ) × ℕ) i =>
      (List.range i).foldl
        (fun (Lj : (ℕ → ℕ → ℝ) × ℕ) j =>
          (fun a b => if a = i ∧ b = j then off_diag.getD Lj.2 0 else Lj.1 a b, Lj.2 + 1))
        Li)
    (fun a b => if a = b ∧ a < log_diag.length then Real.exp (log_diag.getD a 0) else 0, 0)).1

/-- The live covariance `mini_cov = L @ L.t()` of
`Covariance._get_padded_cov` (covariance.py line 78), as a function over
natural indices, zero outside the live range. -/
noncomputable def mini_cov (log_diag off_diag : List ℝ) : ℕ → ℕ → ℝ :=
  fun r c =>
    if r < log_diag.length ∧ c < log_diag.length then
      ∑ j ∈ Finset.range log_diag.length,
        log_chol_to_chol log_diag off_diag r j * log_chol_to_chol log_diag off_diag c j
    else 0

/-- The mask `[int(i not in self.empty_idx) for i in range(self.rank)]` of
covariance.py line 84. -/
def liveMask (rank : ℕ) (empty_idx : List ℕ) : List ℕ :=
  (List.range rank).map (fun i => if empty_idx.contains i then 0 else 1)

/-- Quadratic form of an n-by-n naturals-indexed matrix. -/
noncomputable def quadForm (n : ℕ) (A : ℕ → ℕ → ℝ) (x : ℕ → ℝ) : ℝ :=
  ∑ r ∈ Finset.range n, ∑ c ∈ Finset.range n, x r * A r c * x c

/-- The state of a constructed `Covariance` module (covariance.py lines
9-31): identifier, rank, (effective) empty indices, parameterization
method, the two 1-d parameter tensors, and the declared time-varying
keyword names. -/
structure Covariance where
  id : String
  rank : ℕ
  empty_idx : List ℕ
  method : String
  cholesky_log_diag : List ℝ
  cholesky_off_diag : List ℝ
  time_varying_kwargs : Option (List String)

/-- The constructor `Covariance.__init__` (covariance.py lines 10-31).  An empty
`empty_idx` is replaced by `[rank + 1]`; only the log-Cholesky method
allocates the two parameter tensors (their random initial values are
supplied by `randn_diag` / `randn_off`); any other method fails before any
parameter is allocated. -/
def Covariance.init (id : String) (rank : ℕ) (empty_idx : List ℕ) (method : String)
    (randn_diag randn_off : ℕ → ℝ) : Except KFError Covariance :=
  let empty_idx2 := if empty_idx.length = 0 then [rank + 1] else empty_idx
  if method = "log_cholesky" then
    let param_rank := ((List.range rank).filter (fun i => !(empty_idx2.contains i))).length
    let n_off := param_rank * (param_rank - 1) / 2
    Except.ok
      { id := id
        rank := rank
        empty_idx := empty_idx2
        method := method
        cholesky_log_diag := (List.range param_rank).map randn_diag
        cholesky_off_diag := (List.range n_off).map randn_off
        time_varying_kwargs := none }
  else Except.error KFError.notImplemented

/-- The method `Covariance._get_cache_key` (covariance.py lines 64-73): no inputs
gives the static key; a time-varying input bypasses the cache (key none);
anything else is an explicit not-implemented failure. -/
def Covariance._get_cache_key (c : Covariance) (inputs : List (String × (ℕ → ℕ → ℝ)))
    (pref : String) : Except KFError (Option String) :=
  if inputs.length = 0 then Except.ok (some (pref ++ "_static"))
  else
    match c.time_varying_kwargs with
    | some tv =>
      if inputs.any (fun kv => tv.contains kv.1) then Except.ok none
      else Except.error KFError.notImplemented
    | none => Except.error KFError.notImplemented

section
open Classical

/-- The method `Covariance._get_padded_cov` (covariance.py lines 75-86): builds the
Cholesky factor, forms the live covariance, fails with a NumericalError if
any diagonal entry is within absolute tolerance 1e-10 of zero
(`torch.isclose(..., atol=1e-10)` with `other = 0`), and otherwise pads the
live covariance with the non-empty-index mask. -/
noncomputable def Covariance._get_padded_cov (c : Covariance)
    (inputs : List (String × (ℕ → ℕ → ℝ))) : Except KFError (ℕ → ℕ → ℝ) :=
  if c.method = "log_cholesky" then
    if ∃ i ∈ Finset.range c.cholesky_log_diag.length,
        |mini_cov c.cholesky_log_diag c.cholesky_off_diag i i| ≤ (1e-10 : ℝ) then
      Except.error KFError.numericalError
    else
      Except.ok (pad_covariance (mini_cov c.cholesky_log_diag c.cholesky_off_diag)
        (liveMask c.rank c.empty_idx))
  else Except.error KFError.notImplemented

end

/-- The method `Covariance.forward` (covariance.py lines 54-62): resolve the cache
key; with a key, serve from the cache or compute once and store; with no
key, recompute without touching the cache. -/
noncomputable def Covariance.forward (c : Covariance)
    (inputs : List (String × (ℕ → ℕ → ℝ))) (cache : List (String × (ℕ → ℕ → ℝ))) :
    Except KFError ((ℕ → ℕ → ℝ) × List (String × (ℕ → ℕ → ℝ))) :=
  match c._get_cache_key inputs c.id with
  | Except.error e => Except.error e
  | Except.ok (some key) =>
    match alookup cache key with
    | some v => Except.ok (v, cache)
    | none =>
      match c._get_padded_cov inputs with
      | Except.error e => Except.error e
      | Except.ok v => Except.ok (v, (key, v) :: cache)
  | Except.ok none =>
    match c._get_padded_cov inputs with
    | Except.error e => Except.error e
    | Except.ok v => Except.ok (v, cache)

/-- A `StateBeliefOverTime`: the ordered, non-empty sequence of
state-beliefs produced by a forward pass. -/
structure StateBeliefOverTime (β : Type) where
  state_beliefs : List β
  ne : state_beliefs ≠ []

/-- Modelled from the spec: `StateBeliefOverTime.last_prediction` (the
state_belief.over_time module is not under src/); per the spec, forecasting
continues from the last belief of a prior StateBeliefOverTime. -/
def StateBeliefOverTime.last_prediction {β : Type} (o : StateBeliefOverTime β) : β :=
  o.state_beliefs.getLast o.ne

section
variable {β γ μ : Type}
variable (upd : β → γ → β) (prd : β → μ → μ → β) (msr : β → μ → μ → β)
variable (F Q H R : ℕ → μ) (obs : ℕ → γ)

/-- Resolution of the initial belief: an explicitly given `initial_state`
is used as the prediction for time 0, otherwise the design's initial-state
contribution. -/
def initialOf (initial_state : Option β) (design_init : β) : β :=
  match initial_state with
  | some b => b
  | none => design_init

/-- One iteration of the loop of `KalmanFilter.forward`
(kalman_filter/base.py lines 88-105): at t greater than 0, update with the
observation at t-1 and predict with F(t-1), Q(t-1); at every t, compute the
measurement with H(t), R(t) and append.  The performed operations are
emitted alongside. -/
def kfStep : (β × List β × List KFOp) → ℕ → (β × List β × List KFOp) :=
  fun st t =>
    let s2 : β × List KFOp :=
      if 0 < t then
        (prd (upd st.1 (obs (t - 1))) (F (t - 1)) (Q (t - 1)),
          st.2.2 ++ [KFOp.update (t - 1), KFOp.predict (t - 1)])
      else (st.1, st.2.2)
    let spm := msr s2.1 (H t) (R t)
    (spm, st.2.1 ++ [spm], s2.2 ++ [KFOp.measure t])

/-- The method `KalmanFilter.forward` of kalman_filter/base.py (lines 50-109): the
measure-dimension guard followed by the one-step-ahead prediction loop.
The design matrices are supplied as per-timestep functions (the design
module is not under src/) and `obs t` stands for `input[:, t, :]`. -/
def BaseKF.forward (measure_size num_groups num_timesteps num_measures : ℕ)
    (initial_state : Option β) (design_init : β) : Except KFError (List β × List KFOp) :=
  if num_measures ≠ measure_size then Except.error KFError.configError
  else
    Except.ok (((List.range num_timesteps).foldl (kfStep upd prd msr F Q H R obs)
      (initialOf initial_state design_init, [], [])).2)

/-- One iteration of the loop of `KalmanFilter.forecast`
(kalman_filter/base.py lines 184-198): no update; at t greater than 0,
predict with F(t-1), Q(t-1); at every t, compute the measurement with
H(t), R(t) and append. -/
def fcStep : (β × List β × List KFOp) → ℕ → (β × List β × List KFOp) :=
  fun st t =>
    let s2 : β × List KFOp :=
      if 0 < t then
        (prd st.1 (F (t - 1)) (Q (t - 1)), st.2.2 ++ [KFOp.predict (t - 1)])
      else (st.1, st.2.2)
    let spm := msr s2.1 (H t) (R t)
    (spm, st.2.1 ++ [spm], s2.2 ++ [KFOp.measure t])

/-- The starting belief of a forecast: either the given StateBelief or the
last belief of the given StateBeliefOverTime. -/
def forecastStart {β : Type} (states : β ⊕ StateBeliefOverTime β) : β :=
  match states with
  | Sum.inl b => b
  | Sum.inr o => o.last_prediction

/-- The method `KalmanFilter.forecast` of kalman_filter/base.py (lines 153-202):
requires a positive horizon (`assert horizon > 0`, a configuration error
otherwise) and runs the no-update recursion from the starting belief. -/
def BaseKF.forecast (states : β ⊕ StateBeliefOverTime β) (horizon : ℤ) :
    Except KFError (List β × List KFOp) :=
  if horizon ≤ 0 then Except.error KFError.configError
  else
    Except.ok (((List.range horizon.toNat).foldl (fcStep prd msr F Q H R)
      (forecastStart states, [], [])).2)

/-- One iteration of the loop of `KalmanFilter.forecast` of
kalman_filter.py (lines 138-142): predict at every step (including the
first) with the design at time h, then compute the measurement with the
design at time h and append. -/
def oldFcStep : (β × List β × List KFOp) → ℕ → (β × List β × List KFOp) :=
  fun st h =>
    let sp := prd st.1 (F h) (Q h)
    let spm := msr sp (H h) (R h)
    (spm, st.2.1 ++ [spm], st.2.2 ++ [KFOp.predict h, KFOp.measure h])

/-- The method `KalmanFilter.forecast` of kalman_filter.py (lines 118-144):
`assert horizon > 0`, start from the given belief or
`state_belief.state_beliefs[-1]`, and loop `oldFcStep`. -/
def OldKF.forecast (states : β ⊕ StateBeliefOverTime β) (horizon : ℤ) :
    Except KFError (List β × List KFOp) :=
  if horizon ≤ 0 then Except.error KFError.configError
  else
    let sb := match states with
      | Sum.inl b => b
      | Sum.inr o => o.state_beliefs.getLast o.ne
    Except.ok (((List.range horizon.toNat).foldl (oldFcStep prd msr F Q H R)
      (sb, [], [])).2)

/-- One iteration of the loop of `KalmanFilter.forward` of kalman_filter.py
(lines 88-105): at t greater than 0, update with the observation at t-1 and
predict with the F and Q of the batch design computed in the previous
iteration (that is, at time t-1); then compute the batch design at time t,
compute the measurement with its H and R, and append.  The second component
of the accumulator carries the previous iteration's (F, Q, H, R). -/
def oldFwdStep : (β × (μ × μ × μ × μ) × List β × List KFOp) → ℕ →
    (β × (μ × μ × μ × μ) × List β × List KFOp) :=
  fun st t =>
    let s2 : β × List KFOp :=
      if 0 < t then
        (prd (upd st.1 (obs (t - 1))) st.2.1.1 st.2.1.2.1,
          st.2.2.2 ++ [KFOp.update (t - 1), KFOp.predict (t - 1)])
      else (st.1, st.2.2.2)
    let bd := (F t, Q t, H t, R t)
    let spm := msr s2.1 bd.2.2.1 bd.2.2.2
    (spm, bd, st.2.2.1 ++ [spm], s2.2 ++ [KFOp.measure t])

/-- The method `KalmanFilter.forward` of kalman_filter.py (lines 60-107): the same
measure-dimension guard and recursion as the base version, with the batch
design carried across iterations (its initial value is never read, since
the predict branch only runs at t greater than 0). -/
def OldKF.forward (measure_size num_groups num_timesteps num_measures : ℕ)
    (initial_state : Option β) (design_init : β) : Except KFError (List β × List KFOp) :=
  if num_measures ≠ measure_size then Except.error KFError.configError
  else
    Except.ok (((List.range num_timesteps).foldl (oldFwdStep upd prd msr F Q H R obs)
      (initialOf initial_state design_init, (F 0, Q 0, H 0, R 0), [], [])).2.2)

/-- The belief appended at timestep t by the forward recursion: at 0 the
measured initial belief, afterwards measure(predict(update(previous))). -/
def kfExpected (b0 : β) : ℕ → β
  | 0 => msr b0 (H 0) (R 0)
  | t + 1 => msr (prd (upd (kfExpected b0 t) (obs t)) (F t) (Q t)) (H (t + 1)) (R (t + 1))

/-- The operations performed by the forward recursion through timestep t. -/
def kfTraceUpTo : ℕ → List KFOp
  | 0 => [KFOp.measure 0]
  | t + 1 => kfTraceUpTo t ++ [KFOp.update t, KFOp.predict t, KFOp.measure (t + 1)]

/-- The belief appended at step t by the base forecast recursion: at 0 the
measured starting belief, afterwards measure(predict(previous)). -/
def fcExpected (b0 : β) : ℕ → β
  | 0 => msr b0 (H 0) (R 0)
  | t + 1 => msr (prd (fcExpected b0 t) (F t) (Q t)) (H (t + 1)) (R (t + 1))

/-- The operations performed by the base forecast recursion through step t. -/
def fcTraceUpTo : ℕ → List KFOp
  | 0 => [KFOp.measure 0]
  | t + 1 => fcTraceUpTo t ++ [KFOp.predict t, KFOp.measure (t + 1)]

/-- The belief appended at step h by the kalman_filter.py forecast
recursion: measure(predict(previous)) at every step, including step 0. -/
def oldFcExpected (b0 : β) : ℕ → β
  | 0 => msr (prd b0 (F 0) (Q 0)) (H 0) (R 0)
  | h + 1 => msr (prd (oldFcExpected b0 h) (F (h + 1)) (Q (h + 1))) (H (h + 1)) (R (h + 1))

/-- The operations performed by the kalman_filter.py forecast recursion
through step h. -/
def oldFcTraceUpTo : ℕ → List KFOp
  | 0 => [KFOp.predict 0, KFOp.measure 0]
  | h + 1 => oldFcTraceUpTo h ++ [KFOp.predict (h + 1), KFOp.measure (h + 1)]

end

/-- A one-dimensional Gaussian state belief: mean, covariance and the
optional stored measurement prediction (y-hat, S).  Modelled from the
spec: the StateBelief operations (state_belief module is not under src/);
this is the state-dimension-1 instance of the spec formulas. -/
abbrev Gauss1 : Type := ℚ × ℚ × Option (ℚ × ℚ)

/-- Modelled from the spec: StateBelief.predict, dimension 1 -- mean F*mu,
covariance F*Sigma*F + Q, no stored measurement on the new belief. -/
def g1predict (b : Gauss1) (F Q : ℚ) : Gauss1 :=
  (F * b.1, F * b.2.1 * F + Q, none)

/-- Modelled from the spec: StateBelief.compute_measurement, dimension 1 --
stores (H*mu, H*Sigma*H + R) on the belief without altering mean or
covariance. -/
def g1measure (b : Gauss1) (H R : ℚ) : Gauss1 :=
  (b.1, b.2.1, some (H * b.1, H * b.2.1 * H + R))

/-- The for-batch flag holder: an object of a class using the
`is_for_batch` decorator (process/utils/for_batch.py), with its
`_for_batch` attribute and remaining state. -/
structure ForBatchObj (α : Type) where
  _for_batch : Bool
  payload : α

/-- The decorator `is_for_batch(setting)` (process/utils/for_batch.py lines 5-24): the
wrapped method raises (spec taxonomy: ContractError) when the receiver's
`_for_batch` flag differs from the decorator's setting, and otherwise
delegates to the wrapped function unchanged. -/
def is_for_batch {α δ ρ : Type} (setting : Bool) (func : ForBatchObj α → δ → ρ) :
    ForBatchObj α → δ → Except KFError ρ :=
  fun slf args =>
    if slf._for_batch ≠ setting then Except.error KFError.contractError
    else Except.ok (func slf args)

/-- A concrete static covariance module used to exercise the theorems:
rank 1, no empty indices (hence effective empty_idx = [rank + 1] = [2]),
log-diagonal parameter [0]. -/
noncomputable def cov1 : Covariance :=
  { id := "c1"
    rank := 1
    empty_idx := [2]
    method := "log_cholesky"
    cholesky_log_diag := [(0 : ℝ)]
    cholesky_off_diag := []
    time_varying_kwargs := none }

/-- A symmetric rational test matrix used by witnesses. -/
def u3 : ℕ → ℕ → ℚ := fun a b => (a : ℚ) + (b : ℚ)

theorem buildP2U_length (mask : List ℕ) : ∀ p0 u0, (buildP2U mask p0 u0).length = mask.count 1 := by
  induction mask with
  | nil => intro p0 u0; simp [buildP2U]
  | cons v rest ih =>
    intro p0 u0
    by_cases hv : v = 1
    · subst hv
      simp [buildP2U, ih, List.count_cons]
    · simp [buildP2U, hv, ih, List.count_cons, Ne.symm hv]

theorem alookup_cons {κ ν : Type} [BEq κ] (k q : κ) (v : ν) (l : List (κ × ν)) :
    alookup ((k, v) :: l) q = if k == q then some v else alookup l q := by
  simp only [alookup, List.find?]
  cases h : (k == q) <;> simp [h]

theorem alookup_buildP2U_lt (mask : List ℕ) :
    ∀ p0 u0 k, k < p0 → alookup (buildP2U mask p0 u0) k = none := by
  induction mask with
  | nil => intro p0 u0 k _; simp [buildP2U, alookup]
  | cons v rest ih =>
    intro p0 u0 k hk
    by_cases hv : v = 1
    · have hne : (p0 == k) = false := beq_eq_false_iff_ne.mpr (by omega)
      simp only [buildP2U, if_pos hv]
      rw [alookup_cons, hne, if_neg (by simp)]
      exact ih (p0 + 1) (u0 + 1) k (Nat.lt_succ_of_lt hk)
    · simp only [buildP2U, if_neg hv]
      exact ih (p0 + 1) u0 k (Nat.lt_succ_of_lt hk)

theorem alookup_buildP2U (mask : List ℕ) :
    ∀ p0 u0 k, alookup (buildP2U mask p0 u0) (p0 + k) =
      if mask.getD k 0 = 1 then some (u0 + (mask.take k).count 1) else none := by
  induction mask with
  | nil => intro p0 u0 k; simp [buildP2U, alookup]
  | cons v rest ih =>
    intro p0 u0 k
    cases k with
    | zero =>
      by_cases hv : v = 1
      · simp only [buildP2U, if_pos hv, Nat.add_zero]
        rw [alookup_cons]
        simp [hv]
      · simp only [buildP2U, if_neg hv, Nat.add_zero]
        rw [alookup_buildP2U_lt rest (p0 + 1) u0 p0 (Nat.lt_succ_self p0)]
        simp [hv]
    | succ j =>
      have hkey : p0 + (j + 1) = (p0 + 1) + j := by omega
      rw [List.getD_cons_succ, List.take_succ_cons, List.count_cons]
      by_cases hv : v = 1
      · have hne : (p0 == p0 + (j + 1)) = false := beq_eq_false_iff_ne.mpr (by omega)
        simp only [buildP2U, if_pos hv]
        rw [alookup_cons, hne, if_neg (by simp), hkey, ih (p0 + 1) (u0 + 1) j]
        by_cases hr : rest.getD j 0 = 1
        · rw [if_pos hr, if_pos hr]
          have hb : (v == 1) = true := by simp [hv]
          rw [hb]
          simp
          omega
        · rw [if_neg hr, if_neg hr]
      · simp only [buildP2U, if_neg hv]
        rw [hkey, ih (p0 + 1) u0 j]
        by_cases hr : rest.getD j 0 = 1
        · rw [if_pos hr, if_pos hr]
          have hb : (v == 1) = false := beq_eq_false_iff_ne.mpr hv
          rw [hb]
          simp
        · rw [if_neg hr, if_neg hr]

theorem alookup_pad (mask : List ℕ) (p : ℕ) :
    alookup (buildP2U mask 0 0) p =
      if mask.getD p 0 = 1 then some ((mask.take p).count 1) else none := by
  have := alookup_buildP2U mask 0 0 p
  simpa using this

theorem getD_one_lt_length {mask : List ℕ} {p : ℕ} (h : mask.getD p 0 = 1) : p < mask.length := by
  by_contra hc
  rw [List.getD_eq_default mask 0 (Nat.le_of_not_lt hc)] at h
  exact absurd h (by norm_num)

theorem count_take_lt {mask : List ℕ} : ∀ {p : ℕ}, mask.getD p 0 = 1 →
    (mask.take p).count 1 < mask.count 1 := by
  induction mask with
  | nil => intro p h; simp at h
  | cons v rest ih =>
    intro p h
    cases p with
    | zero =>
      simp at h
      simp [h, List.count_cons]
    | succ j =>
      simp only [List.getD_cons_succ] at h
      have := ih h
      simp [List.count_cons]
      omega

theorem pad_all_ones {α : Type} [Zero α] (u : ℕ → ℕ → α) (mask : List ℕ)
    (h : ∀ b ∈ mask, b = 1) : pad_covariance u mask = u := by
  unfold pad_covariance
  rw [if_pos]
  rw [buildP2U_length]
  exact List.count_eq_length.2 (fun b hb => (h b hb).symm)

theorem pad_not_all_ones {α : Type} [Zero α] (u : ℕ → ℕ → α) (mask : List ℕ)
    (h : ∃ b ∈ mask, b ≠ 1) :
    pad_covariance u mask = fun to_r to_c =>
      if to_r < mask.length ∧ to_c < mask.length then
        if to_r ≤ to_c then
          match alookup (buildP2U mask 0 0) to_r, alookup (buildP2U mask 0 0) to_c with
          | some from_r, some from_c => u from_r from_c
          | _, _ => 0
        else
          match alookup (buildP2U mask 0 0) to_c, alookup (buildP2U mask 0 0) to_r with
          | some from_c, some from_r => u from_c from_r
          | _, _ => 0
      else 0 := by
  unfold pad_covariance
  rw [if_neg]
  rw [buildP2U_length]
  intro hc
  obtain ⟨b, hb, hbne⟩ := h
  exact hbne (List.count_eq_length.1 hc b hb).symm

theorem count_take_all_ones {mask : List ℕ} (h : ∀ b ∈ mask, b = 1) {p : ℕ}
    (hp : p ≤ mask.length) : (mask.take p).count 1 = p := by
  have hall : ∀ b ∈ mask.take p, b = 1 := fun b hb => h b (List.mem_of_mem_take hb)
  have := List.count_eq_length.2 (fun b hb => (hall b hb).symm)
  rw [this, List.length_take]
  omega

theorem pad_live {α : Type} [Zero α] (u : ℕ → ℕ → α) (mask : List ℕ)
    (hsym : ∀ a b, u a b = u b a) {p q : ℕ}
    (hp : mask.getD p 0 = 1) (hq : mask.getD q 0 = 1) :
    pad_covariance u mask p q = u ((mask.take p).count 1) ((mask.take q).count 1) := by
  by_cases hall : ∀ b ∈ mask, b = 1
  · rw [pad_all_ones u mask hall,
      count_take_all_ones hall (Nat.le_of_lt (getD_one_lt_length hp)),
      count_take_all_ones hall (Nat.le_of_lt (getD_one_lt_length hq))]
  · push_neg at hall
    rw [pad_not_all_ones u mask hall]
    have hpl := getD_one_lt_length hp
    have hql := getD_one_lt_length hq
    simp only [if_pos (And.intro hpl hql)]
    by_cases hle : p ≤ q
    · rw [if_pos hle, alookup_pad mask p, alookup_pad mask q, if_pos hp, if_pos hq]
    · rw [if_neg hle, alookup_pad mask p, alookup_pad mask q, if_pos hp, if_pos hq]
      exact hsym _ _

theorem pad_empty {α : Type} [Zero α] (u : ℕ → ℕ → α) (mask : List ℕ) {p : ℕ}
    (hpl : p < mask.length) (hp : mask.getD p 0 ≠ 1) (q : ℕ) :
    pad_covariance u mask p q = 0 ∧ pad_covariance u mask q p = 0 := by
  have hnot : ∃ b ∈ mask, b ≠ 1 := by
    refine ⟨mask.getD p 0, ?_, hp⟩
    rw [List.getD_eq_getElem mask 0 hpl]
    exact List.getElem_mem hpl
  rw [pad_not_all_ones u mask hnot]
  by_cases hql : q < mask.length
  · constructor
    · simp only [if_pos (And.intro hpl hql)]
      by_cases hle : p ≤ q
      · rw [if_pos hle, alookup_pad mask p, if_neg hp]
      · rw [if_neg hle, alookup_pad mask p, if_neg hp]
        cases alookup (buildP2U mask 0 0) q <;> rfl
    · simp only [if_pos (And.intro hql hpl)]
      by_cases hle : q ≤ p
      · rw [if_pos hle, alookup_pad mask p, if_neg hp]
        cases alookup (buildP2U mask 0 0) q <;> rfl
      · rw [if_neg hle, alookup_pad mask p, if_neg hp]
  · constructor
    · simp [hql]
    · simp [hql]

theorem pad_symm {α : Type} [Zero α] (u : ℕ → ℕ → α) (mask : List ℕ)
    (hsym : ∀ a b, u a b = u b a) (r c : ℕ) :
    pad_covariance u mask r c = pad_covariance u mask c r := by
  by_cases hall : ∀ b ∈ mask, b = 1
  · rw [pad_all_ones u mask hall]; exact hsym r c
  · push_neg at hall
    rw [pad_not_all_ones u mask hall]
    by_cases hr : r < mask.length
    · by_cases hc : c < mask.length
      · simp only [if_pos (And.intro hr hc), if_pos (And.intro hc hr)]
        rcases Nat.lt_trichotomy r c with hlt | heq | hgt
        · rw [if_pos (Nat.le_of_lt hlt), if_neg (Nat.not_le_of_lt hlt)]
        · subst heq; rfl
        · rw [if_neg (Nat.not_le_of_lt hgt), if_pos (Nat.le_of_lt hgt)]
      · simp [hr, hc]
    · simp [hr]

theorem lct_inner_apply (od : List ℝ) (i : ℕ) :
    ∀ (js : List ℕ) (st : (ℕ → ℕ → ℝ) × ℕ) (a b : ℕ),
      (a ≠ i ∨ ∀ j ∈ js, b ≠ j) →
      ((js.foldl
        (fun (Lj : (ℕ → ℕ → ℝ) × ℕ) j =>
          (fun a b => if a = i ∧ b = j then od.getD Lj.2 0 else Lj.1 a b, Lj.2 + 1))
        st).1) a b = st.1 a b := by
  intro js
  induction js with
  | nil => intro st a b _; rfl
  | cons j js ih =>
    intro st a b h
    rw [List.foldl_cons]
    have h2 : a ≠ i ∨ ∀ x ∈ js, b ≠ x := by
      rcases h with h | h
      · exact Or.inl h
      · exact Or.inr (fun x hx => h x (List.mem_cons_of_mem j hx))
    rw [ih _ a b h2]
    have hne : ¬(a = i ∧ b = j) := by
      rcases h with h | h
      · intro hc; exact h hc.1
      · intro hc; exact h j (List.mem_cons_self j js) hc.2
    simp [hne]

theorem lct_outer_apply (od : List ℝ) :
    ∀ (is : List ℕ) (st : (ℕ → ℕ → ℝ) × ℕ) (a b : ℕ),
      (∀ i ∈ is, a ≠ i ∨ i ≤ b) →
      ((is.foldl
        (fun (Li : (ℕ → ℕ → ℝ) × ℕ) i =>
          (List.range i).foldl
            (fun (Lj : (ℕ → ℕ → ℝ) × ℕ) j =>
              (fun a b => if a = i ∧ b = j then od.getD Lj.2 0 else Lj.1 a b, Lj.2 + 1))
            Li)
        st).1) a b = st.1 a b := by
  intro is
  induction is with
  | nil => intro st a b _; rfl
  | cons i is ih =>
    intro st a b h
    rw [List.foldl_cons]
    rw [ih _ a b (fun x hx => h x (List.mem_cons_of_mem i hx))]
    apply lct_inner_apply
    rcases h i (List.mem_cons_self i is) with h | h
    · exact Or.inl h
    · exact Or.inr (fun j hj => by
        have : j < i := List.mem_range.mp hj
        omega)

theorem lct_not_lower (ld od : List ℝ) {a b : ℕ} (h : ¬ b < a) :
    log_chol_to_chol ld od a b =
      if a = b ∧ a < ld.length then Real.exp (ld.getD a 0) else 0 := by
  unfold log_chol_to_chol
  apply lct_outer_apply
  intro i _
  by_cases hai : a = i
  · subst hai; exact Or.inr (by omega)
  · exact Or.inl hai

theorem lct_diag (ld od : List ℝ) {a : ℕ} (h : a < ld.length) :
    log_chol_to_chol ld od a a = Real.exp (ld.getD a 0) := by
  rw [lct_not_lower ld od (by omega), if_pos ⟨rfl, h⟩]

theorem lct_above (ld od : List ℝ) {a b : ℕ} (h : a < b) :
    log_chol_to_chol ld od a b = 0 := by
  rw [lct_not_lower ld od (by omega), if_neg (by omega)]

theorem mini_cov_symm (ld od : List ℝ) (r c : ℕ) :
    mini_cov ld od r c = mini_cov ld od c r := by
  unfold mini_cov
  by_cases h : r < ld.length ∧ c < ld.length
  · rw [if_pos h, if_pos ⟨h.2, h.1⟩]
    exact Finset.sum_congr rfl (fun j _ => mul_comm _ _)
  · rw [if_neg h, if_neg (fun hc => h ⟨hc.2, hc.1⟩)]

theorem mini_quad_eq (ld od : List ℝ) (x : ℕ → ℝ) :
    quadForm ld.length (mini_cov ld od) x =
      ∑ j ∈ Finset.range ld.length,
        (∑ r ∈ Finset.range ld.length, x r * log_chol_to_chol ld od r j) *
        (∑ c ∈ Finset.range ld.length, x c * log_chol_to_chol ld od c j) := by
  unfold quadForm
  have step1 : ∀ r ∈ Finset.range ld.length, ∀ c ∈ Finset.range ld.length,
      x r * mini_cov ld od r c * x c =
        ∑ j ∈ Finset.range ld.length,
          (x r * log_chol_to_chol ld od r j) * (x c * log_chol_to_chol ld od c j) := by
    intro r hr c hc
    unfold mini_cov
    rw [if_pos ⟨Finset.mem_range.mp hr, Finset.mem_range.mp hc⟩, Finset.mul_sum, Finset.sum_mul]
    exact Finset.sum_congr rfl (fun j _ => by ring)
  calc
    ∑ r ∈ Finset.range ld.length, ∑ c ∈ Finset.range ld.length,
        x r * mini_cov ld od r c * x c
      = ∑ r ∈ Finset.range ld.length, ∑ c ∈ Finset.range ld.length,
          ∑ j ∈ Finset.range ld.length,
            (x r * log_chol_to_chol ld od r j) * (x c * log_chol_to_chol ld od c j) := by
        refine Finset.sum_congr rfl (fun r hr => Finset.sum_congr rfl (fun c hc => ?_))
        exact step1 r hr c hc
    _ = ∑ r ∈ Finset.range ld.length, ∑ j ∈ Finset.range ld.length,
          ∑ c ∈ Finset.range ld.length,
            (x r * log_chol_to_chol ld od r j) * (x c * log_chol_to_chol ld od c j) := by
        exact Finset.sum_congr rfl (fun r _ => Finset.sum_comm)
    _ = ∑ j ∈ Finset.range ld.length, ∑ r ∈ Finset.range ld.length,
          ∑ c ∈ Finset.range ld.length,
            (x r * log_chol_to_chol ld od r j) * (x c * log_chol_to_chol ld od c j) := by
        exact Finset.sum_comm
    _ = ∑ j ∈ Finset.range ld.length,
          (∑ r ∈ Finset.range ld.length, x r * log_chol_to_chol ld od r j) *
          (∑ c ∈ Finset.range ld.length, x c * log_chol_to_chol ld od c j) := by
        exact Finset.sum_congr rfl (fun j _ => (Finset.sum_mul_sum _ _ _ _).symm)

theorem mini_cov_posdef (ld od : List ℝ) (x : ℕ → ℝ)
    (hx : ∃ i, i < ld.length ∧ x i ≠ 0) :
    0 < quadForm ld.length (mini_cov ld od) x := by
  classical
  rw [mini_quad_eq]
  set g : ℕ → ℝ := fun j => ∑ r ∈ Finset.range ld.length, x r * log_chol_to_chol ld od r j
    with hg
  have hS : ((Finset.range ld.length).filter (fun i => x i ≠ 0)).Nonempty := by
    obtain ⟨i, hi, hxi⟩ := hx
    exact ⟨i, Finset.mem_filter.mpr ⟨Finset.mem_range.mpr hi, hxi⟩⟩
  set i := ((Finset.range ld.length).filter (fun i => x i ≠ 0)).max' hS with hi
  have him : i ∈ (Finset.range ld.length).filter (fun i => x i ≠ 0) := Finset.max'_mem _ hS
  have hilt : i < ld.length := Finset.mem_range.mp (Finset.mem_filter.mp him).1
  have hxi : x i ≠ 0 := (Finset.mem_filter.mp him).2
  have hgi : g i = x i * log_chol_to_chol ld od i i := by
    rw [hg]
    apply Finset.sum_eq_single_of_mem i (Finset.mem_range.mpr hilt)
    intro r hr hne
    by_cases hxr : x r = 0
    · rw [hxr, zero_mul]
    · have hrS : r ∈ (Finset.range ld.length).filter (fun i => x i ≠ 0) :=
        Finset.mem_filter.mpr ⟨hr, hxr⟩
      have : r ≤ i := Finset.le_max' _ r hrS
      have hrlt : r < i := lt_of_le_of_ne this hne
      rw [lct_above ld od hrlt, mul_zero]
  have hgine : g i ≠ 0 := by
    rw [hgi, lct_diag ld od hilt]
    exact mul_ne_zero hxi (ne_of_gt (Real.exp_pos _))
  apply Finset.sum_pos' (fun j _ => mul_self_nonneg (g j))
  exact ⟨i, Finset.mem_range.mpr hilt, mul_self_pos.mpr hgine⟩

theorem kf_loop_eq {β γ μ : Type} (upd : β → γ → β) (prd msr : β → μ → μ → β)
    (F Q H R : ℕ → μ) (obs : ℕ → γ) (b0 : β) :
    ∀ n, (List.range (n + 1)).foldl (kfStep upd prd msr F Q H R obs) (b0, [], []) =
      (kfExpected upd prd msr F Q H R obs b0 n,
       (List.range (n + 1)).map (kfExpected upd prd msr F Q H R obs b0),
       kfTraceUpTo n) := by
  intro n
  induction n with
  | zero =>
    simp [List.range_succ, kfStep, kfExpected, kfTraceUpTo]
  | succ n ih =>
    rw [List.range_succ, List.foldl_append, ih, List.foldl_cons, List.foldl_nil]
    simp only [kfStep, if_pos (Nat.succ_pos n), Nat.add_sub_cancel]
    simp [kfExpected, kfTraceUpTo, List.append_assoc]

theorem fc_loop_eq {β μ : Type} (prd msr : β → μ → μ → β)
    (F Q H R : ℕ → μ) (b0 : β) :
    ∀ n, (List.range (n + 1)).foldl (fcStep prd msr F Q H R) (b0, [], []) =
      (fcExpected prd msr F Q H R b0 n,
       (List.range (n + 1)).map (fcExpected prd msr F Q H R b0),
       fcTraceUpTo n) := by
  intro n
  induction n with
  | zero =>
    simp [List.range_succ, fcStep, fcExpected, fcTraceUpTo]
  | succ n ih =>
    rw [List.range_succ, List.foldl_append, ih, List.foldl_cons, List.foldl_nil]
    simp only [fcStep, if_pos (Nat.succ_pos n), Nat.add_sub_cancel]
    simp [fcExpected, fcTraceUpTo, List.append_assoc]

theorem oldfc_loop_eq {β μ : Type} (prd msr : β → μ → μ → β)
    (F Q H R : ℕ → μ) (b0 : β) :
    ∀ n, (List.range (n + 1)).foldl (oldFcStep prd msr F Q H R) (b0, [], []) =
      (oldFcExpected prd msr F Q H R b0 n,
       (List.range (n + 1)).map (oldFcExpected prd msr F Q H R b0),
       oldFcTraceUpTo n) := by
  intro n
  induction n with
  | zero =>
    simp [List.range_succ, oldFcStep, oldFcExpected, oldFcTraceUpTo]
  | succ n ih =>
    rw [List.range_succ, List.foldl_append, ih, List.foldl_cons, List.foldl_nil]
    simp only [oldFcStep]
    simp [oldFcExpected, oldFcTraceUpTo, List.append_assoc]

theorem oldfwd_loop_eq {β γ μ : Type} (upd : β → γ → β) (prd msr : β → μ → μ → β)
    (F Q H R : ℕ → μ) (obs : ℕ → γ) (b0 : β) (bd0 : μ × μ × μ × μ) :
    ∀ n, (List.range (n + 1)).foldl (oldFwdStep upd prd msr F Q H R obs) (b0, bd0, [], []) =
      (kfExpected upd prd msr F Q H R obs b0 n,
       (F n, Q n, H n, R n),
       (List.range (n + 1)).map (kfExpected upd prd msr F Q H R obs b0),
       kfTraceUpTo n) := by
  intro n
  induction n with
  | zero =>
    simp [List.range_succ, oldFwdStep, kfExpected, kfTraceUpTo]
  | succ n ih =>
    rw [List.range_succ, List.foldl_append, ih, List.foldl_cons, List.foldl_nil]
    simp only [oldFwdStep, if_pos (Nat.succ_pos n), Nat.add_sub_cancel]
    simp [kfExpected, kfTraceUpTo, List.append_assoc]

theorem fcTrace_no_update : ∀ n t, KFOp.update t ∉ fcTraceUpTo n := by
  intro n
  induction n with
  | zero => intro t; simp [fcTraceUpTo]
  | succ n ih => intro t; simp [fcTraceUpTo, ih]

theorem oldFcTrace_no_update : ∀ n t, KFOp.update t ∉ oldFcTraceUpTo n := by
  intro n
  induction n with
  | zero => intro t; simp [oldFcTraceUpTo]
  | succ n ih => intro t; simp [oldFcTraceUpTo, ih]

theorem oldFc_eq_fc_shift {β μ : Type} (prd msr : β → μ → μ → β) (Fm Qm Hm Rm : μ)
    (hpm : ∀ b, prd (msr b Hm Rm) Fm Qm = prd b Fm Qm) (b0 : β) :
    ∀ k, oldFcExpected prd msr (fun _ => Fm) (fun _ => Qm) (fun _ => Hm) (fun _ => Rm) b0 k =
      fcExpected prd msr (fun _ => Fm) (fun _ => Qm) (fun _ => Hm) (fun _ => Rm) b0 (k + 1) := by
  intro k
  induction k with
  | zero => simp [oldFcExpected, fcExpected, hpm]
  | succ k ih => simp [oldFcExpected, fcExpected, ih]

theorem length_filter_not_contains (e : List ℕ) :
    ∀ n, ((List.range n).filter (fun i => !(e.contains i))).length =
      ((Finset.range n).filter (fun i => i ∉ e)).card := by
  intro n
  induction n with
  | zero => simp
  | succ n ih =>
    rw [List.range_succ, List.filter_append, List.length_append, ih, Finset.range_succ]
    by_cases hmem : n ∈ e
    · rw [Finset.filter_insert, if_neg (by simpa using hmem)]
      simp [hmem]
    · rw [Finset.filter_insert, if_pos (by simpa using hmem),
        Finset.card_insert_of_not_mem (by simp)]
      simp [hmem]

/-- C9: for every method wrapped with the is_for_batch(setting) decorator,
calling it raises a ContractError exactly when the receiving object's
_for_batch flag differs from the decorator's setting, and otherwise
delegates to the wrapped function with unchanged arguments and result. -/
theorem is_for_batch_guard_c9 {α δ ρ : Type} (setting : Bool)
    (func : ForBatchObj α → δ → ρ) (slf : ForBatchObj α) (args : δ) :
    (is_for_batch setting func slf args = Except.error KFError.contractError ↔
      slf._for_batch ≠ setting) ∧
    (slf._for_batch = setting →
      is_for_batch setting func slf args = Except.ok (func slf args)) := by
  unfold is_for_batch
  by_cases h : slf._for_batch = setting
  · simp [h]
  · simp [h]

/-- Witness for C9 at a concrete wrapped function and matching flag. -/
theorem is_for_batch_guard_c9_witness :
    is_for_batch true (fun (slf : ForBatchObj ℕ) (n : ℕ) => slf.payload + n)
      { _for_batch := true, payload := 3 } 4 = Except.ok 7 :=
  (is_for_batch_guard_c9 true (fun slf n => slf.payload + n)
    { _for_batch := true, payload := 3 } 4).2 rfl

/-- C6: KalmanFilter.forward (both implementations) fails with a
configuration error whenever the last dimension of the input differs from
the configured measure count; the guard precedes the recursion, so the
error result carries no performed operations. -/
theorem forward_measure_mismatch_c6 {β γ μ : Type} (upd : β → γ → β)
    (prd msr : β → μ → μ → β) (F Q H R : ℕ → μ) (obs : ℕ → γ)
    (ms ng T nm : ℕ) (istate : Option β) (dinit : β) (h : nm ≠ ms) :
    BaseKF.forward upd prd msr F Q H R obs ms ng T nm istate dinit
      = Except.error KFError.configError ∧
    OldKF.forward upd prd msr F Q H R obs ms ng T nm istate dinit
      = Except.error KFError.configError := by
  refine ⟨?_, ?_⟩ <;> simp [BaseKF.forward, OldKF.forward, h]

/-- Witness for C6 at a concrete mismatched shape (2 measures against a
1-measure filter). -/
theorem forward_measure_mismatch_c6_witness :
    BaseKF.forward (fun (b o : ℚ) => b + o) (fun b f q => b * f + q)
      (fun b h r => b + h * r) (fun _ => (1 : ℚ)) (fun _ => 1) (fun _ => 1) (fun _ => 1)
      (fun _ => (2 : ℚ)) 1 1 3 2 none 0 = Except.error KFError.configError ∧
    OldKF.forward (fun (b o : ℚ) => b + o) (fun b f q => b * f + q)
      (fun b h r => b + h * r) (fun _ => (1 : ℚ)) (fun _ => 1) (fun _ => 1) (fun _ => 1)
      (fun _ => (2 : ℚ)) 1 1 3 2 none 0 = Except.error KFError.configError :=
  forward_measure_mismatch_c6 (fun (b o : ℚ) => b + o) (fun b f q => b * f + q)
    (fun b h r => b + h * r) (fun _ => (1 : ℚ)) (fun _ => 1) (fun _ => 1) (fun _ => 1)
    (fun _ => (2 : ℚ)) 1 1 3 2 none 0 (by decide)

/-- C1: for a well-shaped input with at least one timestep, forward returns
exactly T beliefs in timestep order -- the belief at index t being the one
produced by measuring with H(t), R(t) after (for t greater than 0) updating
with the observation at t-1 and predicting with F(t-1), Q(t-1) -- and the
performed operations are exactly one measurement at t = 0 followed, for
each later t, by update(t-1), predict(t-1), measure(t); both forward
implementations agree. -/
theorem kalman_forward_recursion_c1 {β γ μ : Type} (upd : β → γ → β)
    (prd msr : β → μ → μ → β) (F Q H R : ℕ → μ) (obs : ℕ → γ)
    (ms ng T nm : ℕ) (istate : Option β) (dinit : β) (hm : nm = ms) (hT : 1 ≤ T) :
    BaseKF.forward upd prd msr F Q H R obs ms ng T nm istate dinit =
      Except.ok ((List.range T).map
        (kfExpected upd prd msr F Q H R obs (initialOf istate dinit)),
        kfTraceUpTo (T - 1)) ∧
    OldKF.forward upd prd msr F Q H R obs ms ng T nm istate dinit =
      BaseKF.forward upd prd msr F Q H R obs ms ng T nm istate dinit ∧
    ((List.range T).map
      (kfExpected upd prd msr F Q H R obs (initialOf istate dinit))).length = T := by
  obtain ⟨n, rfl⟩ : ∃ n, T = n + 1 := ⟨T - 1, by omega⟩
  have hcond : ¬ nm ≠ ms := by simp [hm]
  refine ⟨?_, ?_, by simp⟩
  · unfold BaseKF.forward
    rw [if_neg hcond, kf_loop_eq]
    simp
  · unfold BaseKF.forward OldKF.forward
    rw [if_neg hcond, if_neg hcond, kf_loop_eq, oldfwd_loop_eq]

/-- Witness for C1 at a concrete two-timestep scalar run. -/
theorem kalman_forward_recursion_c1_witness :
    BaseKF.forward (fun (b o : ℚ) => b + o) (fun b f q => b * f + q)
      (fun b h r => b + h * r) (fun _ => (1 : ℚ)) (fun _ => 1) (fun _ => 1) (fun _ => 1)
      (fun _ => (2 : ℚ)) 1 1 2 1 none 0 =
      Except.ok ((List.range 2).map
        (kfExpected (fun (b o : ℚ) => b + o) (fun b f q => b * f + q)
          (fun b h r => b + h * r) (fun _ => (1 : ℚ)) (fun _ => 1) (fun _ => 1) (fun _ => 1)
          (fun _ => (2 : ℚ)) (initialOf none 0)),
        kfTraceUpTo 1) :=
  (kalman_forward_recursion_c1 (fun (b o : ℚ) => b + o) (fun b f q => b * f + q)
    (fun b h r => b + h * r) (fun _ => (1 : ℚ)) (fun _ => 1) (fun _ => 1) (fun _ => 1)
    (fun _ => (2 : ℚ)) 1 1 2 1 none 0 rfl (by decide)).1

/-- C4: forecast fails with a configuration error for every horizon at most
0; for every positive horizon it returns exactly that many additional
beliefs, its recursion performs no update operation, and when given a
StateBeliefOverTime it starts from that sequence's last belief.  Both
forecast implementations satisfy the contract (each characterised by its
own recursion). -/
theorem forecast_contract_c4 {β μ : Type} (prd msr : β → μ → μ → β) (F Q H R : ℕ → μ)
    (states : β ⊕ StateBeliefOverTime β) (horizon : ℤ) :
    (horizon ≤ 0 →
      BaseKF.forecast prd msr F Q H R states horizon = Except.error KFError.configError ∧
      OldKF.forecast prd msr F Q H R states horizon = Except.error KFError.configError) ∧
    (0 < horizon →
      BaseKF.forecast prd msr F Q H R states horizon =
        Except.ok ((List.range horizon.toNat).map
          (fcExpected prd msr F Q H R (forecastStart states)),
          fcTraceUpTo (horizon.toNat - 1)) ∧
      OldKF.forecast prd msr F Q H R states horizon =
        Except.ok ((List.range horizon.toNat).map
          (oldFcExpected prd msr F Q H R (forecastStart states)),
          oldFcTraceUpTo (horizon.toNat - 1)) ∧
      ((List.range horizon.toNat).map
        (fcExpected prd msr F Q H R (forecastStart states))).length = horizon.toNat ∧
      (∀ t, KFOp.update t ∉ fcTraceUpTo (horizon.toNat - 1)) ∧
      (∀ t, KFOp.update t ∉ oldFcTraceUpTo (horizon.toNat - 1)) ∧
      (∀ o, states = Sum.inr o →
        forecastStart states = o.state_beliefs.getLast o.ne)) := by
  constructor
  · intro h
    constructor
    · unfold BaseKF.forecast
      rw [if_pos h]
    · unfold OldKF.forecast
      rw [if_pos h]
  · intro h
    obtain ⟨n, hn⟩ : ∃ n, horizon.toNat = n + 1 := ⟨horizon.toNat - 1, by omega⟩
    have hno : ¬ horizon ≤ 0 := by omega
    refine ⟨?_, ?_, by simp, fun t => fcTrace_no_update _ t,
      fun t => oldFcTrace_no_update _ t, ?_⟩
    · unfold BaseKF.forecast
      rw [if_neg hno, hn, fc_loop_eq]
      simp [hn]
    · unfold OldKF.forecast
      rw [if_neg hno, hn]
      rcases states with b | o
      · dsimp only
        rw [oldfc_loop_eq]
        simp [forecastStart]
      · dsimp only
        rw [oldfc_loop_eq]
        simp [forecastStart, StateBeliefOverTime.last_prediction]
    · rintro o rfl
      rfl

/-- Witness for C4 at a concrete horizon of 2 from a scalar belief. -/
theorem forecast_contract_c4_witness :
    BaseKF.forecast (fun (b f q : ℚ) => b * f + q) (fun b h r => b + h * r)
      (fun _ => (1 : ℚ)) (fun _ => 1) (fun _ => 1) (fun _ => 1) (Sum.inl (5 : ℚ)) 2 =
      Except.ok ((List.range (2 : ℤ).toNat).map
        (fcExpected (fun (b f q : ℚ) => b * f + q) (fun b h r => b + h * r)
          (fun _ => (1 : ℚ)) (fun _ => 1) (fun _ => 1) (fun _ => 1)
          (forecastStart (Sum.inl (5 : ℚ)))),
        fcTraceUpTo ((2 : ℤ).toNat - 1)) :=
  ((forecast_contract_c4 (fun (b f q : ℚ) => b * f + q) (fun b h r => b + h * r)
    (fun _ => (1 : ℚ)) (fun _ => 1) (fun _ => 1) (fun _ => 1) (Sum.inl (5 : ℚ)) 2).2
    (by decide)).1

theorem map_range_succ_tail {α : Type} (f : ℕ → α) (n : ℕ) :
    (List.map f (List.range (n + 1))).tail = List.map (fun k => f (k + 1)) (List.range n) := by
  rw [List.range_succ_eq_map]
  simp [List.map_map, Function.comp]

/-- C10 (amended): the two forecast implementations are not equivalent; the
kalman_filter.py forecast applies predict at every step including the
first, while the base.py forecast emits the measured starting belief first.
For a time-constant design family, and with predict insensitive to the
stored measurement (as the spec's predict is), the kalman_filter.py
forecast of horizon h equals the base.py forecast of horizon h+1 with its
first belief removed. -/
theorem forecast_equiv_c10_amended {β μ : Type} (prd msr : β → μ → μ → β)
    (Fm Qm Hm Rm : μ) (hpm : ∀ b, prd (msr b Hm Rm) Fm Qm = prd b Fm Qm)
    (b0 : β) (h : ℤ) (hh : 0 < h) :
    (OldKF.forecast prd msr (fun _ => Fm) (fun _ => Qm) (fun _ => Hm) (fun _ => Rm)
        (Sum.inl b0) h).toOption.map Prod.fst =
      (BaseKF.forecast prd msr (fun _ => Fm) (fun _ => Qm) (fun _ => Hm) (fun _ => Rm)
        (Sum.inl b0) (h + 1)).toOption.map (fun p => p.1.tail) := by
  obtain ⟨n, hn⟩ : ∃ n, h.toNat = n + 1 := ⟨h.toNat - 1, by omega⟩
  have hn1 : (h + 1).toNat = n + 2 := by omega
  unfold OldKF.forecast BaseKF.forecast
  rw [if_neg (by omega : ¬ h ≤ 0), if_neg (by omega : ¬ h + 1 ≤ 0), hn, hn1]
  dsimp only
  rw [oldfc_loop_eq, fc_loop_eq]
  simp only [Except.toOption, Option.map]
  rw [map_range_succ_tail]
  have hmc := List.map_congr_left (l := List.range (n + 1))
    (f := oldFcExpected prd msr (fun _ => Fm) (fun _ => Qm) (fun _ => Hm) (fun _ => Rm) b0)
    (g := fun k => fcExpected prd msr (fun _ => Fm) (fun _ => Qm) (fun _ => Hm)
      (fun _ => Rm) (forecastStart (Sum.inl b0)) (k + 1))
    (fun k _ => oldFc_eq_fc_shift prd msr Fm Qm Hm Rm hpm b0 k)
  rw [hmc]

/-- Counterexample for C10 as stated: with the spec's scalar Gaussian
belief, constant design F = 1, Q = 1, H = 1, R = 0, starting belief
(mean 0, covariance 1) and horizon 1, the two forecasts return different
belief sequences (the legacy one has already predicted once). -/
theorem forecast_equiv_c10_cex :
    (OldKF.forecast g1predict g1measure (fun _ => (1 : ℚ)) (fun _ => 1) (fun _ => 1)
        (fun _ => 0) (Sum.inl ((0 : ℚ), (1 : ℚ), (none : Option (ℚ × ℚ)))) 1).toOption.map
        Prod.fst ≠
      (BaseKF.forecast g1predict g1measure (fun _ => (1 : ℚ)) (fun _ => 1) (fun _ => 1)
        (fun _ => 0) (Sum.inl ((0 : ℚ), (1 : ℚ), (none : Option (ℚ × ℚ)))) 1).toOption.map
        Prod.fst := by
  unfold OldKF.forecast BaseKF.forecast
  rw [if_neg (by decide), if_neg (by decide)]
  dsimp only
  rw [show (1 : ℤ).toNat = 0 + 1 from rfl, oldfc_loop_eq, fc_loop_eq]
  simp only [Except.toOption, Option.map, List.range_succ, List.range_zero, List.nil_append,
    List.map_cons, List.map_nil]
  simp [oldFcExpected, fcExpected, forecastStart, g1predict, g1measure]

/-- Witness for the amended C10 at the concrete scalar Gaussian model. -/
theorem forecast_equiv_c10_witness :
    (OldKF.forecast g1predict g1measure (fun _ => (1 : ℚ)) (fun _ => 1) (fun _ => 1)
        (fun _ => 0) (Sum.inl ((0 : ℚ), (1 : ℚ), (none : Option (ℚ × ℚ)))) 1).toOption.map
        Prod.fst =
      (BaseKF.forecast g1predict g1measure (fun _ => (1 : ℚ)) (fun _ => 1) (fun _ => 1)
        (fun _ => 0) (Sum.inl ((0 : ℚ), (1 : ℚ), (none : Option (ℚ × ℚ)))) 2).toOption.map
        (fun p => p.1.tail) :=
  forecast_equiv_c10_amended g1predict g1measure 1 1 1 0 (fun _ => rfl)
    ((0 : ℚ), (1 : ℚ), none) 1 (by decide)

/-- C3: pad_covariance is a faithful embedding -- the entry of the padded
matrix at two non-empty (mask = 1) positions is the live entry at their
ranks among the non-empty positions (so extracting the sub-matrix at the
non-empty indices reproduces the live covariance exactly), every row and
column at an empty index is exactly zero, and when the mask has no empty
indices the input matrix is returned unchanged. -/
theorem pad_covariance_embedding_c3 {α : Type} [Zero α] (u : ℕ → ℕ → α) (mask : List ℕ)
    (hsym : ∀ a b, u a b = u b a) :
    (∀ p q, mask.getD p 0 = 1 → mask.getD q 0 = 1 →
      pad_covariance u mask p q = u ((mask.take p).count 1) ((mask.take q).count 1)) ∧
    (∀ p, p < mask.length → mask.getD p 0 ≠ 1 →
      ∀ q, pad_covariance u mask p q = 0 ∧ pad_covariance u mask q p = 0) ∧
    ((∀ b ∈ mask, b = 1) → pad_covariance u mask = u) :=
  ⟨fun _ _ hp hq => pad_live u mask hsym hp hq,
   fun _ hpl hp q => pad_empty u mask hpl hp q,
   fun h => pad_all_ones u mask h⟩

/-- Witness for C3: a symmetric live matrix, mask [1, 0, 1], the padded
entry at the two live positions 2 and 0 is the live entry at their ranks. -/
theorem pad_covariance_embedding_c3_witness :
    pad_covariance u3 [1, 0, 1] 2 0 =
      u3 (([1, 0, 1].take 2).count 1) (([1, 0, 1].take 0).count 1) :=
  (pad_covariance_embedding_c3 u3 [1, 0, 1]
    (fun a b => add_comm ((a : ℚ)) ((b : ℚ)))).1 2 0 rfl rfl

/-- C2 (amended): the padded covariance produced by _get_padded_cov is
exactly symmetric; the live covariance L*Lt is positive definite (its
quadratic form is strictly positive at every vector with a nonzero entry
below the live rank); and when no index below the rank is empty the padded
covariance coincides with the live one and is itself positive definite.
(As stated the claim fails: with an empty index the padded matrix has a
zero row and column, so it is only positive semidefinite.) -/
theorem covariance_symm_posdef_c2 (ld od : List ℝ) (rank : ℕ) (empty_idx : List ℕ) :
    (∀ r c, pad_covariance (mini_cov ld od) (liveMask rank empty_idx) r c =
      pad_covariance (mini_cov ld od) (liveMask rank empty_idx) c r) ∧
    (∀ x : ℕ → ℝ, (∃ i, i < ld.length ∧ x i ≠ 0) →
      0 < quadForm ld.length (mini_cov ld od) x) ∧
    ((∀ i, i < rank → empty_idx.contains i = false) → ld.length = rank →
      ∀ x : ℕ → ℝ, (∃ i, i < rank ∧ x i ≠ 0) →
        0 < quadForm rank (pad_covariance (mini_cov ld od) (liveMask rank empty_idx)) x) := by
  refine ⟨fun r c => pad_symm _ _ (mini_cov_symm ld od) r c,
    fun x hx => mini_cov_posdef ld od x hx, ?_⟩
  intro hemp hlen x hx
  have hall : ∀ b ∈ liveMask rank empty_idx, b = 1 := by
    intro b hb
    simp only [liveMask, List.mem_map, List.mem_range] at hb
    obtain ⟨i, hi, hbi⟩ := hb
    rw [hemp i hi] at hbi
    simpa using hbi.symm
  rw [pad_all_ones _ _ hall, ← hlen]
  rw [← hlen] at hx
  exact mini_cov_posdef ld od x hx

/-- Counterexample for C2 as stated: at rank 2 with empty index 1 and
log-diagonal [0], the padded covariance annihilates the unit vector at
index 1, so it does not have all eigenvalues positive. -/
theorem covariance_posdef_c2_cex :
    (fun i => if i = 1 then (1 : ℝ) else 0) 1 ≠ 0 ∧
    quadForm 2 (pad_covariance (mini_cov [(0 : ℝ)] []) (liveMask 2 [1]))
      (fun i => if i = 1 then (1 : ℝ) else 0) = 0 := by
  constructor
  · norm_num
  · have hmask : liveMask 2 [1] = [1, 0] := rfl
    have hzero := (pad_empty (mini_cov [(0 : ℝ)] []) [1, 0] (p := 1)
      (by norm_num) (by norm_num) 1).1
    unfold quadForm
    rw [hmask]
    simp [Finset.sum_range_succ, Finset.sum_range_zero, hzero]

/-- Witness for the amended C2: with one live index and log-diagonal [0],
the padded covariance is positive definite at the all-ones vector. -/
theorem covariance_symm_posdef_c2_witness :
    0 < quadForm 1 (pad_covariance (mini_cov [(0 : ℝ)] []) (liveMask 1 [2]))
      (fun _ => (1 : ℝ)) :=
  (covariance_symm_posdef_c2 [(0 : ℝ)] [] 1 [2]).2.2
    (fun i hi => by interval_cases i; rfl) rfl (fun _ => (1 : ℝ))
    ⟨0, by norm_num, one_ne_zero⟩

/-- C5: for a log-Cholesky covariance, _get_padded_cov raises a
NumericalError if and only if some diagonal entry of the live covariance
L*Lt is within absolute tolerance 1e-10 of zero, and otherwise returns the
padded covariance. -/
theorem padded_cov_numerical_error_c5 (c : Covariance)
    (inputs : List (String × (ℕ → ℕ → ℝ))) (hm : c.method = "log_cholesky") :
    (c._get_padded_cov inputs = Except.error KFError.numericalError ↔
      ∃ i ∈ Finset.range c.cholesky_log_diag.length,
        |mini_cov c.cholesky_log_diag c.cholesky_off_diag i i| ≤ (1e-10 : ℝ)) ∧
    (¬ (∃ i ∈ Finset.range c.cholesky_log_diag.length,
        |mini_cov c.cholesky_log_diag c.cholesky_off_diag i i| ≤ (1e-10 : ℝ)) →
      c._get_padded_cov inputs =
        Except.ok (pad_covariance (mini_cov c.cholesky_log_diag c.cholesky_off_diag)
          (liveMask c.rank c.empty_idx))) := by
  classical
  unfold Covariance._get_padded_cov
  rw [if_pos hm]
  by_cases hcond : ∃ i ∈ Finset.range c.cholesky_log_diag.length,
      |mini_cov c.cholesky_log_diag c.cholesky_off_diag i i| ≤ (1e-10 : ℝ)
  · rw [if_pos hcond]
    exact ⟨⟨fun _ => hcond, fun _ => rfl⟩, fun hn => absurd hcond hn⟩
  · rw [if_neg hcond]
    exact ⟨⟨fun he => absurd he (by simp), fun hc => absurd hc hcond⟩, fun _ => rfl⟩

/-- Witness for C5: the concrete rank-1 covariance has live diagonal entry
1, far from zero, so _get_padded_cov succeeds with the padded covariance. -/
theorem padded_cov_numerical_error_c5_witness :
    Covariance._get_padded_cov cov1 [] =
      Except.ok (pad_covariance (mini_cov cov1.cholesky_log_diag cov1.cholesky_off_diag)
        (liveMask cov1.rank cov1.empty_idx)) := by
  refine (padded_cov_numerical_error_c5 cov1 [] rfl).2 ?_
  rintro ⟨i, hi, habs⟩
  have hi0 : i = 0 := by
    have : i < cov1.cholesky_log_diag.length := Finset.mem_range.mp hi
    simpa [cov1] using this
  subst hi0
  have hmini : mini_cov cov1.cholesky_log_diag cov1.cholesky_off_diag 0 0 = 1 := by
    show mini_cov [(0 : ℝ)] [] 0 0 = 1
    unfold mini_cov
    rw [if_pos (by norm_num)]
    rw [show ([(0 : ℝ)]).length = 1 from rfl, Finset.sum_range_one,
      lct_diag [(0 : ℝ)] [] (by norm_num)]
    norm_num
  rw [hmini] at habs
  norm_num at habs

/-- C7: constructing a Covariance with a method other than log_cholesky
fails at construction (before any parameter is allocated: the error carries
nothing); with log_cholesky it succeeds and the log-diagonal parameter has
length equal to the number of non-empty indices below the rank, with the
off-diagonal parameter of length m(m-1)/2 for m that count. -/
theorem covariance_init_c7 (id : String) (rank : ℕ) (empty_idx : List ℕ) (method : String)
    (rd ro : ℕ → ℝ) :
    (method ≠ "log_cholesky" →
      Covariance.init id rank empty_idx method rd ro = Except.error KFError.notImplemented) ∧
    (method = "log_cholesky" →
      ∀ c, Covariance.init id rank empty_idx method rd ro = Except.ok c →
        c.cholesky_log_diag.length =
          ((Finset.range rank).filter
            (fun i => i ∉ (if empty_idx.length = 0 then [rank + 1] else empty_idx))).card ∧
        c.cholesky_off_diag.length =
          c.cholesky_log_diag.length * (c.cholesky_log_diag.length - 1) / 2) := by
  constructor
  · intro h
    unfold Covariance.init
    rw [if_neg h]
  · intro h c hc
    unfold Covariance.init at hc
    rw [if_pos h] at hc
    cases hc
    refine ⟨?_, by simp⟩
    rw [List.length_map, List.length_range, length_filter_not_contains]

/-- Witness for C7: an unrecognized method fails at construction. -/
theorem covariance_init_c7_witness :
    Covariance.init "x" 2 [] "cholesky" (fun _ => (0 : ℝ)) (fun _ => (0 : ℝ)) =
      Except.error KFError.notImplemented :=
  (covariance_init_c7 "x" 2 [] "cholesky" (fun _ => (0 : ℝ)) (fun _ => (0 : ℝ))).1
    (by decide)

/-- C8: Covariance.forward resolves its cache key as follows -- with no
inputs the key is id ++ "_static" and the value is served from the cache
when present, computed and stored once when absent (so a second call with
the updated cache reuses it); when some input name matches a declared
time-varying kwarg the cache is bypassed and the covariance recomputed with
the cache unchanged; in every other case (non-empty inputs with no
time-varying match, or no declared time-varying kwargs) the call fails with
the explicit not-implemented error. -/
theorem covariance_forward_cache_c8 (c : Covariance)
    (cache : List (String × (ℕ → ℕ → ℝ))) :
    (∀ v, alookup cache (c.id ++ "_static") = some v →
      c.forward [] cache = Except.ok (v, cache)) ∧
    (alookup cache (c.id ++ "_static") = none →
      ∀ v, c._get_padded_cov [] = Except.ok v →
        c.forward [] cache = Except.ok (v, (c.id ++ "_static", v) :: cache) ∧
        c.forward [] ((c.id ++ "_static", v) :: cache) =
          Except.ok (v, (c.id ++ "_static", v) :: cache)) ∧
    (∀ inputs tv, c.time_varying_kwargs = some tv → inputs ≠ [] →
      inputs.any (fun kv => tv.contains kv.1) = true →
      c.forward inputs cache = (c._get_padded_cov inputs).map (fun v => (v, cache))) ∧
    (∀ inputs, inputs ≠ [] →
      (c.time_varying_kwargs = none ∨
        (∃ tv, c.time_varying_kwargs = some tv ∧
          inputs.any (fun kv => tv.contains kv.1) = false)) →
      c.forward inputs cache = Except.error KFError.notImplemented) := by
  have hkey0 : c._get_cache_key [] c.id = Except.ok (some (c.id ++ "_static")) := by
    simp [Covariance._get_cache_key]
  refine ⟨?_, ?_, ?_, ?_⟩
  · intro v hv
    unfold Covariance.forward
    rw [hkey0]
    dsimp only
    rw [hv]
  · intro hnone v hpad
    constructor
    · unfold Covariance.forward
      rw [hkey0]
      dsimp only
      rw [hnone, hpad]
    · unfold Covariance.forward
      rw [hkey0]
      dsimp only
      rw [alookup_cons, if_pos (by simp)]
  · intro inputs tv htv hne hany
    have hkey : c._get_cache_key inputs c.id = Except.ok none := by
      unfold Covariance._get_cache_key
      rw [if_neg (by simpa [List.length_eq_zero] using hne), htv]
      dsimp only
      rw [if_pos hany]
    unfold Covariance.forward
    rw [hkey]
    dsimp only
    cases hp : c._get_padded_cov inputs <;> simp [hp, Except.map]
  · intro inputs hne hd
    have hkey : c._get_cache_key inputs c.id = Except.error KFError.notImplemented := by
      unfold Covariance._get_cache_key
      rw [if_neg (by simpa [List.length_eq_zero] using hne)]
      rcases hd with hnone | ⟨tv, htv, hfalse⟩
      · rw [hnone]
      · rw [htv]
        dsimp only
        rw [if_neg (by rw [hfalse]; simp)]
    unfold Covariance.forward
    rw [hkey]

/-- Witness for C8: calling forward with a non-empty input dict on a
covariance with no declared time-varying kwargs fails as not implemented. -/
theorem covariance_forward_cache_c8_witness :
    Covariance.forward cov1 [("a", fun _ _ => (0 : ℝ))] [] =
      Except.error KFError.notImplemented :=
  (covariance_forward_cache_c8 cov1 []).2.2.2 [("a", fun _ _ => (0 : ℝ))]
    (by simp) (Or.inl rfl)
